import Mathlib

/-!
Shallow embedding of the goal-evaluation core in
`compiler/rustc_trait_selection/src/solve/mod.rs`: the certainty lattice,
canonical responses, the multi-candidate merge and flounder resolver, the
bounded nested-goal fixpoint, the structural normalizer, and the per-predicate
handlers (`compute_subtype_goal`, `compute_object_safe_goal`,
`compute_const_evaluatable_goal`, `compute_const_arg_has_type_goal`).

Machinery that the file under scrutiny uses but whose definition lives in
sibling crates (the certainty join `unify_with`, `is_identity` on canonical
variable values, the `EvalCtxt` response builder and its fixpoint, the
inference delegate) is modelled from the specification; each such definition
carries a doc comment starting with `Modelled from the spec:`.
-/

/-- Modelled from the spec: the cause attached to an ambiguous certainty
(`MaybeCause` in `rustc_type_ir`, not under `src/`): overflow of the
fixpoint/recursion budget, or plain ambiguity awaiting inference progress. -/
inductive MaybeCause where
  | Ambiguity
  | Overflow
deriving DecidableEq, Repr

/-- `Certainty`: a goal evaluation either definitely succeeded (`Yes`) or is
not yet decidable (`Maybe cause`); definite failure travels separately as
`NoSolution`. -/
inductive Certainty where
  | Yes
  | Maybe (cause : MaybeCause)
deriving DecidableEq, Repr

/-- `Certainty::AMBIGUOUS`, the plain-ambiguity constant. -/
def Certainty.AMBIGUOUS : Certainty := Certainty.Maybe MaybeCause.Ambiguity

/-- Modelled from the spec: the deterministic, commutative and associative
join of two ambiguity causes (`MaybeCause::unify_with`, not under `src/`);
overflow absorbs plain ambiguity. -/
def MaybeCause.unify_with : MaybeCause → MaybeCause → MaybeCause
  | MaybeCause.Ambiguity, MaybeCause.Ambiguity => MaybeCause.Ambiguity
  | MaybeCause.Ambiguity, MaybeCause.Overflow => MaybeCause.Overflow
  | MaybeCause.Overflow, _ => MaybeCause.Overflow

/-- Modelled from the spec: the certainty join-semilattice
(`Certainty::unify_with`, not under `src/`): `Yes` is the identity, any
`Maybe` absorbs, and two `Maybe` causes join via `MaybeCause.unify_with`. -/
def Certainty.unify_with : Certainty → Certainty → Certainty
  | Certainty.Yes, other => other
  | Certainty.Maybe a, Certainty.Yes => Certainty.Maybe a
  | Certainty.Maybe a, Certainty.Maybe b => Certainty.Maybe (a.unify_with b)

/-- One entry of a canonical variable substitution: either still the
canonical variable with the given index, or some concrete term
(abstracted to a tag, since the claims only inspect identity). -/
inductive GenArg where
  | var (i : Nat)
  | concrete (tag : Nat)
deriving DecidableEq, Repr

/-- `CanonicalVarValues`: the substitution recovered for the ordered
canonical variables of a response. -/
structure CanonicalVarValues where
  var_values : List GenArg
deriving DecidableEq, Repr

/-- Modelled from the spec: `CanonicalVarValues::is_identity` (not under
`src/`) holds iff the substitution assigns each canonical variable to
itself, i.e. entry `i` is still variable `i`. -/
def CanonicalVarValues.is_identity (vv : CanonicalVarValues) : Bool :=
  vv.var_values == (List.range vv.var_values.length).map GenArg.var

/-- Modelled from the spec: `CanonicalVarValues::make_identity` (not under
`src/`) maps each of the `n` canonical variables to itself. -/
def CanonicalVarValues.make_identity (vars : Nat) : CanonicalVarValues :=
  { var_values := (List.range vars).map GenArg.var }

/-- `ExternalConstraintsData`: region-outlives obligations and opaque-type
assignments accumulated by a successful proof (payloads abstracted to
tags; the claims only inspect emptiness and structural equality). -/
structure ExternalConstraintsData where
  region_constraints : List (Nat × Nat)
  opaque_types : List (Nat × Nat)
deriving DecidableEq, Repr

/-- `Response = (VarValues, ExternalConstraints, Certainty)`. -/
structure Response where
  var_values : CanonicalVarValues
  external_constraints : ExternalConstraintsData
  certainty : Certainty
deriving DecidableEq, Repr

/-- `Canonical<Response>`: a response abstracted over its free inference
variables, with its max universe, its canonical variable count and the
opaque types it defines. -/
structure CanonicalResponse where
  max_universe : Nat
  vars : Nat
  value : Response
  defining_opaque_types : List Nat
deriving DecidableEq, Repr

/-- `has_no_inference_or_external_constraints` (mod.rs:71-75): no region
constraints, identity variable values, and no opaque-type assignments. -/
def CanonicalResponse.has_no_inference_or_external_constraints
    (self : CanonicalResponse) : Bool :=
  self.value.external_constraints.region_constraints.isEmpty
    && self.value.var_values.is_identity
    && self.value.external_constraints.opaque_types.isEmpty

/-- Unresolved-inference markers inside a type (`ty::InferTy`). -/
inductive InferTy where
  | TyVar (v : Nat)
  | IntVar (v : Nat)
  | FloatVar (v : Nat)
deriving DecidableEq, Repr

/-- Types, abstracted to the head shapes the handlers branch on: inference
variables, alias/opaque heads, and rigid heads (tagged). -/
inductive Ty where
  | Infer (i : InferTy)
  | Alias (kind : Nat) (data : Nat)
  | Rigid (tag : Nat)
deriving DecidableEq, Repr

/-- Modelled from the spec: `Ty::is_ty_var` (not under `src/`) holds exactly
for an unresolved type inference variable. -/
def Ty.is_ty_var : Ty → Bool
  | Ty.Infer (InferTy.TyVar _) => true
  | _ => false

/-- Whether the head constructor is an alias/opaque form, i.e. whether
`let ty::Alias(..) = ty.kind()` matches. -/
def Ty.is_alias : Ty → Bool
  | Ty.Alias _ _ => true
  | _ => false

/-- Unresolved-inference markers inside a constant (`ty::InferConst`). -/
inductive InferConst where
  | Var (v : Nat)
  | EffectVar (v : Nat)
  | Fresh (v : Nat)
deriving DecidableEq, Repr

/-- An unevaluated constant reference (`ty::UnevaluatedConst`): a definition
id plus its generic arguments (abstracted to tags). -/
structure UnevaluatedConst where
  def_id : Nat
  args : Nat
deriving DecidableEq, Repr

/-- `ty::ConstKind`: the resolution states a constant can be in. -/
inductive ConstKind where
  | Param (p : Nat)
  | Infer (i : InferConst)
  | Bound (debruijn : Nat) (var : Nat)
  | Placeholder (p : Nat)
  | Unevaluated (uv : UnevaluatedConst)
  | Value (ty : Ty) (v : Nat)
  | Error (e : Nat)
  | Expr (e : Nat)
deriving DecidableEq, Repr

/-- `AliasRelationDirection` for `AliasRelate` goals. -/
inductive AliasRelationDirection where
  | Equate
  | Subtype
deriving DecidableEq, Repr

/-- The predicates a handler can stage as nested goals: the `AliasRelate`
goal built by the structural normalizer, and other goals abstracted to a
tag (their evaluation is delegated to the out-of-scope dispatcher). -/
inductive PredicateKind where
  | AliasRelate (lhs : Ty) (rhs : Ty) (direction : AliasRelationDirection)
  | Other (tag : Nat)
deriving DecidableEq, Repr

/-- `Goal = (Environment, Predicate)`; the environment is opaque to the
engine and abstracted to a tag. -/
structure Goal where
  param_env : Nat
  predicate : PredicateKind
deriving DecidableEq, Repr

/-- Outcome of evaluating one goal or one fixpoint step: a certainty plus
the goals still pending from it, or a definite `NoSolution`. -/
inductive StepResult where
  | ok (certainty : Certainty) (nested : List Goal)
  | noSolution
deriving DecidableEq, Repr

/-- Outcome of the whole bounded fixpoint: a joined certainty or a definite
`NoSolution`. -/
inductive FixpointResult where
  | success (certainty : Certainty)
  | noSolution
deriving DecidableEq, Repr

/-- `QueryResult`: a canonical response, a definite `NoSolution`, or a fatal
internal error (`bug!`/`unreachable!` in the source — a panic, never a
recoverable outcome). -/
inductive QueryOutcome where
  | ok (response : CanonicalResponse)
  | noSolution
  | fatalBug
deriving DecidableEq, Repr

/-- Modelled from the spec: the boundary operations the engine calls on its
collaborators (the inference delegate and the interner, not under `src/`):
structural subtyping and equating (recording constraints, or signalling
inconsistency), object-safety lookup, delegated const evaluation, the type
of a definition, the environment type of a placeholder const, variable
resolution, and the out-of-scope dispatcher for nested goals. -/
structure SolverDelegate where
  sub_ok : Nat → Ty → Ty → Bool
  eq_ok : Nat → Ty → Ty → Bool
  is_object_safe : Nat → Bool
  try_const_eval : Nat → UnevaluatedConst → Option Nat
  type_of : Nat → Nat → Ty
  find_const_ty_from_env : Nat → Nat → Ty
  resolve_ty : Ty → Ty
  eval_goal : Goal → StepResult

/-- Modelled from the spec: the slice of `EvalCtxt` state the embedded
handlers read and write — the canonicalized variable count and universe,
the current substitution snapshot, the accumulated external constraints,
the nested-goal worklist, and the fresh-variable counter. -/
structure EvalCtxt where
  max_universe : Nat
  vars : Nat
  var_values : CanonicalVarValues
  region_constraints : List (Nat × Nat)
  opaque_types : List (Nat × Nat)
  nested_goals : List Goal
  next_var : Nat
deriving DecidableEq, Repr

/-- `EvalCtxt::next_ty_infer`: allocate a fresh unresolved type variable. -/
def EvalCtxt.next_ty_infer (ec : EvalCtxt) : Ty × EvalCtxt :=
  (Ty.Infer (InferTy.TyVar ec.next_var), { ec with next_var := ec.next_var + 1 })

/-- `EvalCtxt::add_goal`: append one nested goal to the worklist. -/
def EvalCtxt.add_goal (ec : EvalCtxt) (g : Goal) : EvalCtxt :=
  { ec with nested_goals := ec.nested_goals ++ [g] }

/-- Modelled from the spec: snapshot the context's substitution and
accumulated constraints into a `Canonical<Response>` with the given
certainty (the canonicalization step of the response builder). -/
def EvalCtxt.make_canonical_response (ec : EvalCtxt) (certainty : Certainty) :
    CanonicalResponse :=
  { max_universe := ec.max_universe
    vars := ec.vars
    value :=
      { var_values := ec.var_values
        external_constraints :=
          { region_constraints := ec.region_constraints
            opaque_types := ec.opaque_types }
        certainty := certainty }
    defining_opaque_types := [] }

/-- `FIXPOINT_STEP_LIMIT` (mod.rs:61): how many fixpoint iterations the
solver attempts before bailing with overflow. -/
def FIXPOINT_STEP_LIMIT : Nat := 8

/-- Modelled from the spec: one fixpoint iteration — re-evaluate every
pending goal in order, short-circuiting on a definite `NoSolution`, joining
the certainties and appending each goal's still-pending production. -/
def evalStepGo (d : SolverDelegate) :
    List Goal → Certainty → List Goal → StepResult
  | [], certainty, acc => StepResult.ok certainty acc
  | g :: gs, certainty, acc =>
    match d.eval_goal g with
    | StepResult.noSolution => StepResult.noSolution
    | StepResult.ok c nested => evalStepGo d gs (certainty.unify_with c) (acc ++ nested)

/-- Modelled from the spec: one fixpoint iteration over the whole pending
worklist, starting from `Yes` and no production. -/
def evalStep (d : SolverDelegate) (pending : List Goal) : StepResult :=
  evalStepGo d pending Certainty.Yes []

/-- Modelled from the spec: the bounded fixpoint (§4.2) — repeatedly
re-evaluate all pending goals until the worklist is empty, a definite
`NoSolution` short-circuits, or the iteration budget is exhausted, which
yields `Certainty::Maybe(Overflow)`. Also returns the number of iterations
actually performed, so the iteration bound itself can be stated. -/
def fixpointLoop (d : SolverDelegate) :
    Nat → Certainty → List Goal → FixpointResult × Nat
  | _, certainty, [] => (FixpointResult.success certainty, 0)
  | 0, _, _ :: _ => (FixpointResult.success (Certainty.Maybe MaybeCause.Overflow), 0)
  | fuel + 1, certainty, g :: gs =>
    match evalStep d (g :: gs) with
    | StepResult.noSolution => (FixpointResult.noSolution, 1)
    | StepResult.ok c next =>
      let r := fixpointLoop d fuel (certainty.unify_with c) next
      (r.1, r.2 + 1)

/-- Modelled from the spec: `evaluate_added_goals_and_make_canonical_response`
(not under `src/`) — drain the nested-goal worklist under the bounded
fixpoint seeded with the handler's base certainty, then snapshot the
context into a canonical response; a `NoSolution` from any nested goal
fails the whole response. -/
def evaluate_added_goals_and_make_canonical_response (d : SolverDelegate)
    (ec : EvalCtxt) (certainty : Certainty) : QueryOutcome :=
  match (fixpointLoop d FIXPOINT_STEP_LIMIT certainty ec.nested_goals).1 with
  | FixpointResult.noSolution => QueryOutcome.noSolution
  | FixpointResult.success cert => QueryOutcome.ok (ec.make_canonical_response cert)

/-- Result of `structurally_normalize_ty`: the weak-head-normal type and the
updated context, or a definite `NoSolution`. -/
inductive NormalizeResult where
  | ok (ty : Ty) (ec : EvalCtxt)
  | noSolution
deriving DecidableEq, Repr

/-- Modelled from the spec: `try_evaluate_added_goals` (not under `src/`) —
run the bounded fixpoint on the worklist, draining it, and report the
joined certainty or a definite `NoSolution`. -/
def EvalCtxt.try_evaluate_added_goals (d : SolverDelegate) (ec : EvalCtxt) :
    Option (Certainty × EvalCtxt) :=
  match (fixpointLoop d FIXPOINT_STEP_LIMIT Certainty.Yes ec.nested_goals).1 with
  | FixpointResult.noSolution => none
  | FixpointResult.success c => some (c, { ec with nested_goals := [] })

/-- `response_no_constraints_raw` (mod.rs:307-325): a canonical response with
identity variable values, default (empty) external constraints and no
defining opaque types. -/
def response_no_constraints_raw (max_universe : Nat) (vars : Nat)
    (certainty : Certainty) : CanonicalResponse :=
  { max_universe := max_universe
    vars := vars
    value :=
      { var_values := CanonicalVarValues.make_identity vars
        external_constraints := { region_constraints := [], opaque_types := [] }
        certainty := certainty }
    defining_opaque_types := [] }

/-- Modelled from the spec: `make_ambiguous_response_no_constraints` (not
under `src/`) — a constraint-free identity response carrying the given
ambiguity cause, built via `response_no_constraints_raw`. -/
def EvalCtxt.make_ambiguous_response_no_constraints (ec : EvalCtxt)
    (maybe_cause : MaybeCause) : CanonicalResponse :=
  response_no_constraints_raw ec.max_universe ec.vars (Certainty.Maybe maybe_cause)

/-- `SubtypePredicate { a_is_expected, a, b }`. -/
structure SubtypePredicate where
  a_is_expected : Bool
  a : Ty
  b : Ty
deriving DecidableEq, Repr

/-- `CoercePredicate { a, b }`. -/
structure CoercePredicate where
  a : Ty
  b : Ty
deriving DecidableEq, Repr

/-- `compute_subtype_goal` (mod.rs:114-125): if both sides are unresolved
type inference variables respond with ambiguity; otherwise delegate
structural subtyping, failing with `NoSolution` on inconsistency and
otherwise responding with `Yes`. -/
def compute_subtype_goal (d : SolverDelegate) (ec : EvalCtxt)
    (param_env : Nat) (predicate : SubtypePredicate) : QueryOutcome :=
  if predicate.a.is_ty_var && predicate.b.is_ty_var then
    evaluate_added_goals_and_make_canonical_response d ec Certainty.AMBIGUOUS
  else
    if d.sub_ok param_env predicate.a predicate.b then
      evaluate_added_goals_and_make_canonical_response d ec Certainty.Yes
    else
      QueryOutcome.noSolution

/-- `compute_coerce_goal` (mod.rs:100-112): rewrite into a `Subtype` goal
with `a_is_expected := false` and re-dispatch. -/
def compute_coerce_goal (d : SolverDelegate) (ec : EvalCtxt)
    (param_env : Nat) (predicate : CoercePredicate) : QueryOutcome :=
  compute_subtype_goal d ec param_env
    { a_is_expected := false, a := predicate.a, b := predicate.b }

/-- `compute_object_safe_goal` (mod.rs:127-133): `Yes` if the interner
reports the trait object-safe, else a definite `NoSolution`. -/
def compute_object_safe_goal (d : SolverDelegate) (ec : EvalCtxt)
    (trait_def_id : Nat) : QueryOutcome :=
  if d.is_object_safe trait_def_id then
    evaluate_added_goals_and_make_canonical_response d ec Certainty.Yes
  else
    QueryOutcome.noSolution

/-- `compute_const_evaluatable_goal` (mod.rs:149-186): branch on the
constant's resolution state — unevaluated constants delegate evaluation
(`Yes` on success, ambiguity otherwise, never `NoSolution`); inference
variables are ambiguous; placeholders, values and errors are `Yes`;
`Param`, `Bound` and `Expr` are fatal internal errors (`bug!`). -/
def compute_const_evaluatable_goal (d : SolverDelegate) (ec : EvalCtxt)
    (param_env : Nat) (ct : ConstKind) : QueryOutcome :=
  match ct with
  | ConstKind.Unevaluated uv =>
    match d.try_const_eval param_env uv with
    | some _ => evaluate_added_goals_and_make_canonical_response d ec Certainty.Yes
    | none => evaluate_added_goals_and_make_canonical_response d ec Certainty.AMBIGUOUS
  | ConstKind.Infer _ =>
    evaluate_added_goals_and_make_canonical_response d ec Certainty.AMBIGUOUS
  | ConstKind.Placeholder _ =>
    evaluate_added_goals_and_make_canonical_response d ec Certainty.Yes
  | ConstKind.Value _ _ =>
    evaluate_added_goals_and_make_canonical_response d ec Certainty.Yes
  | ConstKind.Error _ =>
    evaluate_added_goals_and_make_canonical_response d ec Certainty.Yes
  | ConstKind.Param _ => QueryOutcome.fatalBug
  | ConstKind.Bound _ _ => QueryOutcome.fatalBug
  | ConstKind.Expr _ => QueryOutcome.fatalBug

/-- `compute_const_arg_has_type_goal` (mod.rs:188-226): effect-kind
inference variables are special-cased to `Yes`; other inference variables
are ambiguous; errors are `Yes`; `Expr`, `Param` and `Bound` are fatal
internal errors; otherwise the constant's intrinsic type is resolved
(by the definition's type, the value's type, or the placeholder's
environment type) and equated with the expected type, failing with
`NoSolution` on inconsistency. -/
def compute_const_arg_has_type_goal (d : SolverDelegate) (ec : EvalCtxt)
    (param_env : Nat) (ct : ConstKind) (ty : Ty) : QueryOutcome :=
  match ct with
  | ConstKind.Infer (InferConst.EffectVar _) =>
    evaluate_added_goals_and_make_canonical_response d ec Certainty.Yes
  | ConstKind.Infer _ =>
    evaluate_added_goals_and_make_canonical_response d ec Certainty.AMBIGUOUS
  | ConstKind.Error _ =>
    evaluate_added_goals_and_make_canonical_response d ec Certainty.Yes
  | ConstKind.Unevaluated uv =>
    if d.eq_ok param_env (d.type_of uv.def_id uv.args) ty then
      evaluate_added_goals_and_make_canonical_response d ec Certainty.Yes
    else
      QueryOutcome.noSolution
  | ConstKind.Expr _ => QueryOutcome.fatalBug
  | ConstKind.Param _ => QueryOutcome.fatalBug
  | ConstKind.Bound _ _ => QueryOutcome.fatalBug
  | ConstKind.Value ct_ty _ =>
    if d.eq_ok param_env ct_ty ty then
      evaluate_added_goals_and_make_canonical_response d ec Certainty.Yes
    else
      QueryOutcome.noSolution
  | ConstKind.Placeholder p =>
    if d.eq_ok param_env (d.find_const_ty_from_env p param_env) ty then
      evaluate_added_goals_and_make_canonical_response d ec Certainty.Yes
    else
      QueryOutcome.noSolution

/-- The predicate `try_merge_responses` scans for: `Certainty::Yes` together
with no inference progress and no external constraints. -/
def dominant_response (response : CanonicalResponse) : Bool :=
  response.value.certainty == Certainty.Yes
    && response.has_no_inference_or_external_constraints

/-- `try_merge_responses` (mod.rs:234-256): `none` on an empty list; if all
candidates equal the first, that one; otherwise the first candidate that
asserts `Yes` and commits to nothing else. -/
def try_merge_responses (responses : List CanonicalResponse) :
    Option CanonicalResponse :=
  match responses with
  | [] => none
  | one :: rest =>
    if rest.all (fun resp => resp == one) then
      some one
    else
      (one :: rest).find? dominant_response

/-- `flounder` (mod.rs:260-274): `NoSolution` on an empty list; otherwise
fold the candidates' certainties, seeded with `Certainty::AMBIGUOUS`, and
answer a constraint-free ambiguous response with the joined cause; a `Yes`
fold result would be a fatal internal error (`bug!`). -/
def flounder (ec : EvalCtxt) (responses : List CanonicalResponse) : QueryOutcome :=
  if responses.isEmpty then
    QueryOutcome.noSolution
  else
    match responses.foldl
        (fun certainty response => certainty.unify_with response.value.certainty)
        Certainty.AMBIGUOUS with
    | Certainty.Maybe maybe_cause =>
      QueryOutcome.ok (ec.make_ambiguous_response_no_constraints maybe_cause)
    | Certainty.Yes => QueryOutcome.fatalBug

/-- `structurally_normalize_ty` (mod.rs:282-304): an alias head is forced by
allocating a fresh inference variable, staging an `AliasRelate` equality
goal, driving the nested-goal fixpoint eagerly, and resolving the fresh
variable; any other head is returned unchanged with no extra work. -/
def structurally_normalize_ty (d : SolverDelegate) (ec : EvalCtxt)
    (param_env : Nat) (ty : Ty) : NormalizeResult :=
  match ty with
  | Ty.Alias kind data =>
    let fresh := ec.next_ty_infer
    let normalized_ty := fresh.1
    let alias_relate_goal : Goal :=
      { param_env := param_env
        predicate :=
          PredicateKind.AliasRelate (Ty.Alias kind data) normalized_ty
            AliasRelationDirection.Equate }
    let ec2 := fresh.2.add_goal alias_relate_goal
    match ec2.try_evaluate_added_goals d with
    | none => NormalizeResult.noSolution
    | some cec => NormalizeResult.ok (d.resolve_ty normalized_ty) cec.2
  | _ => NormalizeResult.ok ty ec

/-- A context with no canonical variables, no accumulated constraints and an
empty worklist — the state in which the dispatcher invokes a handler. -/
def ec0 : EvalCtxt :=
  { max_universe := 0
    vars := 0
    var_values := { var_values := [] }
    region_constraints := []
    opaque_types := []
    nested_goals := []
    next_var := 0 }

/-- The canonical "trivially true, nothing learned" response over zero
canonical variables. -/
def yesResp0 : CanonicalResponse := response_no_constraints_raw 0 0 Certainty.Yes

/-- A constraint-free response carrying plain ambiguity. -/
def ambResp0 : CanonicalResponse :=
  response_no_constraints_raw 0 0 Certainty.AMBIGUOUS

/-- A nested goal used by the fixpoint witnesses. -/
def goal0 : Goal := { param_env := 0, predicate := PredicateKind.Other 0 }

/-- A delegate whose goal evaluation always regenerates the evaluated goal
itself with plain ambiguity; all other callbacks are trivial. -/
def dRegen : SolverDelegate :=
  { sub_ok := fun _ _ _ => true
    eq_ok := fun _ _ _ => true
    is_object_safe := fun _ => true
    try_const_eval := fun _ _ => none
    type_of := fun _ _ => Ty.Rigid 0
    find_const_ty_from_env := fun _ _ => Ty.Rigid 0
    resolve_ty := fun t => t
    eval_goal := fun g => StepResult.ok Certainty.AMBIGUOUS [g] }

/-- A delegate whose goal evaluation resolves every goal outright with no
further production. -/
def dResolve : SolverDelegate :=
  { dRegen with eval_goal := fun _ => StepResult.ok Certainty.Yes [] }

/-- A delegate whose subtyping, equating and object-safety callbacks all
refuse. -/
def dFail : SolverDelegate :=
  { dRegen with
    sub_ok := fun _ _ _ => false
    eq_ok := fun _ _ _ => false
    is_object_safe := fun _ => false }

theorem unify_with_yes (c : Certainty) : c.unify_with Certainty.Yes = c := by
  cases c <;> rfl

theorem fixpointLoop_nil (d : SolverDelegate) (fuel : Nat) (c : Certainty) :
    fixpointLoop d fuel c [] = (FixpointResult.success c, 0) := by
  cases fuel <;> rfl

theorem evaluate_added_goals_empty (d : SolverDelegate) (ec : EvalCtxt)
    (h : ec.nested_goals = []) (base : Certainty) :
    evaluate_added_goals_and_make_canonical_response d ec base =
      QueryOutcome.ok (ec.make_canonical_response base) := by
  unfold evaluate_added_goals_and_make_canonical_response
  rw [h, fixpointLoop_nil]

theorem unify_with_maybe (a : MaybeCause) (c : Certainty) :
    ∃ b, (Certainty.Maybe a).unify_with c = Certainty.Maybe b := by
  cases c with
  | Yes => exact ⟨a, rfl⟩
  | Maybe b => exact ⟨a.unify_with b, rfl⟩

theorem foldl_unify_maybe (rs : List CanonicalResponse) :
    ∀ a : MaybeCause,
      ∃ b, rs.foldl (fun c r => c.unify_with r.value.certainty)
        (Certainty.Maybe a) = Certainty.Maybe b := by
  induction rs with
  | nil => intro a; exact ⟨a, rfl⟩
  | cons r rest ih =>
    intro a
    obtain ⟨b, hb⟩ := unify_with_maybe a r.value.certainty
    obtain ⟨b2, hb2⟩ := ih b
    refine ⟨b2, ?_⟩
    simp only [List.foldl_cons]
    rw [hb]
    exact hb2

theorem make_identity_is_identity (n : Nat) :
    (CanonicalVarValues.make_identity n).is_identity = true := by
  simp [CanonicalVarValues.make_identity, CanonicalVarValues.is_identity]

theorem find_first_split {α : Type} (p : α → Bool) :
    ∀ {l : List α} {a : α}, l.find? p = some a →
      ∃ l₁ l₂, l = l₁ ++ a :: l₂ ∧ ∀ x ∈ l₁, p x = false := by
  intro l
  induction l with
  | nil => intro a h; simp [List.find?] at h
  | cons x xs ih =>
    intro a h
    cases hp : p x with
    | true =>
      rw [List.find?_cons_of_pos _ hp] at h
      cases h
      exact ⟨[], xs, rfl, by intro y hy; simp at hy⟩
    | false =>
      rw [List.find?_cons_of_neg _ (by simp [hp])] at h
      obtain ⟨l₁, l₂, hsplit, hfirst⟩ := ih h
      refine ⟨x :: l₁, l₂, by rw [hsplit, List.cons_append], ?_⟩
      intro y hy
      rcases List.mem_cons.mp hy with hyx | hyl
      · rw [hyx]; exact hp
      · exact hfirst y hyl

/-- C1: Merge dominance — on a non-empty candidate list whose members are
not all structurally identical, if some candidate asserts `Certainty::Yes`
with identity variable values and empty external constraints, then
`try_merge_responses` returns exactly the first such candidate in list
order, regardless of the other candidates' content. -/
theorem try_merge_responses_dominance (one : CanonicalResponse)
    (rest : List CanonicalResponse)
    (hmixed : ¬ rest.all (fun resp => resp == one) = true)
    (hdom : ∃ r ∈ one :: rest, dominant_response r = true) :
    ∃ r l₁ l₂,
      try_merge_responses (one :: rest) = some r ∧
      dominant_response r = true ∧
      one :: rest = l₁ ++ r :: l₂ ∧
      ∀ x ∈ l₁, dominant_response x = false := by
  have hfind : ((one :: rest).find? dominant_response).isSome := by
    rw [List.find?_isSome]
    exact hdom
  obtain ⟨r, hr⟩ := Option.isSome_iff_exists.mp hfind
  obtain ⟨l₁, l₂, hsplit, hfirst⟩ := find_first_split dominant_response hr
  refine ⟨r, l₁, l₂, ?_, List.find?_some hr, hsplit, hfirst⟩
  have hstep : try_merge_responses (one :: rest) =
      if (rest.all fun resp => resp == one) = true then some one
      else List.find? dominant_response (one :: rest) := rfl
  rw [hstep, if_neg hmixed]
  exact hr

/-- Witness for C1 at a concrete input: an ambiguous first candidate and a
dominant second candidate; the dominant one is returned. -/
theorem try_merge_responses_dominance_witness :
    ∃ r l₁ l₂,
      try_merge_responses (ambResp0 :: [yesResp0]) = some r ∧
      dominant_response r = true ∧
      ambResp0 :: [yesResp0] = l₁ ++ r :: l₂ ∧
      ∀ x ∈ l₁, dominant_response x = false :=
  try_merge_responses_dominance ambResp0 [yesResp0] (by decide)
    ⟨yesResp0, by decide, by decide⟩

/-- C7: Merge determinism — `try_merge_responses` on a one-element list
`[r]`, or on any list whose members are all structurally identical to `r`,
returns `r`. -/
theorem try_merge_responses_determinism (r : CanonicalResponse)
    (rest : List CanonicalResponse) (hall : ∀ x ∈ rest, x = r) :
    try_merge_responses (r :: rest) = some r := by
  have hstep : try_merge_responses (r :: rest) =
      if (rest.all fun resp => resp == r) = true then some r
      else List.find? dominant_response (r :: rest) := rfl
  have hall2 : (rest.all fun resp => resp == r) = true := by
    simp only [List.all_eq_true, beq_iff_eq]
    exact hall
  rw [hstep, if_pos hall2]

/-- Witness for C7 at concrete inputs: the singleton list and the list
`[r, r, r]`. -/
theorem try_merge_responses_determinism_witness :
    try_merge_responses [ambResp0] = some ambResp0 ∧
    try_merge_responses [ambResp0, ambResp0, ambResp0] = some ambResp0 :=
  ⟨try_merge_responses_determinism ambResp0 [] (by decide),
   try_merge_responses_determinism ambResp0 [ambResp0, ambResp0] (by decide)⟩

/-- C2 counterexample: at the singleton candidate list holding the
trivially-true response, the lattice join of the candidates' certainties is
`Yes` (the fold of the certainties under the join, seeded with its identity
`Yes`), yet `flounder` succeeds with plain ambiguity — so the claim that
the result's certainty is the lattice join of all candidates' certainties
fails on this input. -/
theorem flounder_join_counterexample :
    flounder ec0 [yesResp0] =
      QueryOutcome.ok (ec0.make_ambiguous_response_no_constraints MaybeCause.Ambiguity) ∧
    [yesResp0].foldl (fun c (r : CanonicalResponse) => c.unify_with r.value.certainty)
      Certainty.Yes = Certainty.Yes ∧
    (ec0.make_ambiguous_response_no_constraints MaybeCause.Ambiguity).value.certainty ≠
      Certainty.Yes := by
  decide

/-- C2 (amended): `flounder` on the empty list fails with `NoSolution`; on a
non-empty list it succeeds with a response whose certainty is the lattice
join of `Certainty::AMBIGUOUS` with every candidate's certainty — hence
always `Ambiguous`, never `Yes` — and whose variable values are the
identity and whose external constraints are empty. -/
theorem flounder_spec (ec : EvalCtxt) (rs : List CanonicalResponse) :
    (rs = [] → flounder ec rs = QueryOutcome.noSolution) ∧
    (rs ≠ [] → ∃ cause,
      rs.foldl (fun c r => c.unify_with r.value.certainty) Certainty.AMBIGUOUS =
        Certainty.Maybe cause ∧
      flounder ec rs =
        QueryOutcome.ok (ec.make_ambiguous_response_no_constraints cause) ∧
      (ec.make_ambiguous_response_no_constraints cause).value.certainty =
        Certainty.Maybe cause ∧
      (ec.make_ambiguous_response_no_constraints cause).value.var_values.is_identity
        = true ∧
      (ec.make_ambiguous_response_no_constraints cause).value.external_constraints =
        { region_constraints := [], opaque_types := [] }) := by
  constructor
  · intro h
    subst h
    rfl
  · intro hne
    obtain ⟨b, hb⟩ := foldl_unify_maybe rs MaybeCause.Ambiguity
    have hamb : rs.foldl (fun c r => c.unify_with r.value.certainty)
        Certainty.AMBIGUOUS = Certainty.Maybe b := hb
    refine ⟨b, hamb, ?_, rfl, make_identity_is_identity ec.vars, rfl⟩
    have hemp : rs.isEmpty = false := by
      cases rs with
      | nil => exact absurd rfl hne
      | cons x xs => rfl
    unfold flounder
    rw [hemp]
    simp only [Bool.false_eq_true, if_false]
    rw [hamb]

/-- Witness for C2 at concrete inputs: the empty list and the singleton
ambiguous candidate. -/
theorem flounder_spec_witness :
    flounder ec0 [] = QueryOutcome.noSolution ∧
    (∃ cause,
      [ambResp0].foldl (fun c r => c.unify_with r.value.certainty)
        Certainty.AMBIGUOUS = Certainty.Maybe cause ∧
      flounder ec0 [ambResp0] =
        QueryOutcome.ok (ec0.make_ambiguous_response_no_constraints cause) ∧
      (ec0.make_ambiguous_response_no_constraints cause).value.certainty =
        Certainty.Maybe cause ∧
      (ec0.make_ambiguous_response_no_constraints cause).value.var_values.is_identity
        = true ∧
      (ec0.make_ambiguous_response_no_constraints cause).value.external_constraints =
        { region_constraints := [], opaque_types := [] }) :=
  ⟨(flounder_spec ec0 []).1 rfl,
   (flounder_spec ec0 [ambResp0]).2 (List.cons_ne_nil ambResp0 [])⟩

/-- C3: Subtype dispatch — when both sides of a `Subtype` goal are
unresolved type inference variables (in particular the same variable on
both sides) the handler responds with `Certainty::Ambiguous`; otherwise it
delegates structural subtyping and fails with `NoSolution` exactly when the
delegate reports inconsistency, succeeding with `Certainty::Yes`
otherwise. -/
theorem compute_subtype_goal_spec (d : SolverDelegate) (ec : EvalCtxt)
    (param_env : Nat) (p : SubtypePredicate) (h : ec.nested_goals = []) :
    (p.a.is_ty_var = true → p.b.is_ty_var = true →
      compute_subtype_goal d ec param_env p =
        QueryOutcome.ok (ec.make_canonical_response Certainty.AMBIGUOUS)) ∧
    (¬(p.a.is_ty_var = true ∧ p.b.is_ty_var = true) →
      compute_subtype_goal d ec param_env p =
        if d.sub_ok param_env p.a p.b then
          QueryOutcome.ok (ec.make_canonical_response Certainty.Yes)
        else QueryOutcome.noSolution) := by
  constructor
  · intro ha hb
    unfold compute_subtype_goal
    rw [ha, hb]
    simp only [Bool.and_self, if_true]
    exact evaluate_added_goals_empty d ec h Certainty.AMBIGUOUS
  · intro hnot
    have hand : (p.a.is_ty_var && p.b.is_ty_var) = false := by
      cases hA : p.a.is_ty_var with
      | false => rfl
      | true =>
        cases hB : p.b.is_ty_var with
        | false => rfl
        | true => exact absurd ⟨hA, hB⟩ hnot
    unfold compute_subtype_goal
    rw [hand]
    simp only [Bool.false_eq_true, if_false]
    cases hs : d.sub_ok param_env p.a p.b with
    | true =>
      simp only [if_true]
      exact evaluate_added_goals_empty d ec h Certainty.Yes
    | false =>
      simp only [Bool.false_eq_true, if_false]

/-- Witness for C3 at concrete inputs: `Subtype(?X, ?X)` with the same
unresolved variable on both sides is ambiguous, and a rigid-rigid goal
under an inconsistent delegate fails with `NoSolution`. -/
theorem compute_subtype_goal_spec_witness :
    compute_subtype_goal dRegen ec0 0
      { a_is_expected := true
        a := Ty.Infer (InferTy.TyVar 0)
        b := Ty.Infer (InferTy.TyVar 0) } =
      QueryOutcome.ok (ec0.make_canonical_response Certainty.AMBIGUOUS) ∧
    compute_subtype_goal dFail ec0 0
      { a_is_expected := true, a := Ty.Rigid 0, b := Ty.Rigid 1 } =
      QueryOutcome.noSolution :=
  ⟨(compute_subtype_goal_spec dRegen ec0 0
      { a_is_expected := true
        a := Ty.Infer (InferTy.TyVar 0)
        b := Ty.Infer (InferTy.TyVar 0) } rfl).1 rfl rfl,
   by
    rw [(compute_subtype_goal_spec dFail ec0 0
      { a_is_expected := true, a := Ty.Rigid 0, b := Ty.Rigid 1 } rfl).2 (by decide)]
    decide⟩

/-- C8: ObjectSafe dispatch — evaluation succeeds with `Certainty::Yes` if
and only if the interner reports the trait object-safe, and otherwise fails
with the definite `NoSolution` (never an ambiguous response). -/
theorem compute_object_safe_goal_spec (d : SolverDelegate) (ec : EvalCtxt)
    (trait_def_id : Nat) (h : ec.nested_goals = []) :
    (compute_object_safe_goal d ec trait_def_id =
        QueryOutcome.ok (ec.make_canonical_response Certainty.Yes) ↔
      d.is_object_safe trait_def_id = true) ∧
    (d.is_object_safe trait_def_id = false →
      compute_object_safe_goal d ec trait_def_id = QueryOutcome.noSolution) := by
  have hyes : d.is_object_safe trait_def_id = true →
      compute_object_safe_goal d ec trait_def_id =
        QueryOutcome.ok (ec.make_canonical_response Certainty.Yes) := by
    intro hs
    unfold compute_object_safe_goal
    rw [hs]
    simp only [if_true]
    exact evaluate_added_goals_empty d ec h Certainty.Yes
  have hno : d.is_object_safe trait_def_id = false →
      compute_object_safe_goal d ec trait_def_id = QueryOutcome.noSolution := by
    intro hs
    unfold compute_object_safe_goal
    rw [hs]
    simp only [Bool.false_eq_true, if_false]
  refine ⟨⟨?_, hyes⟩, hno⟩
  intro hok
  cases hs : d.is_object_safe trait_def_id with
  | true => rfl
  | false =>
    rw [hno hs] at hok
    exact absurd hok (by simp)

/-- Witness for C8 at concrete inputs: an object-safe trait succeeds with
`Yes`; a non-object-safe trait fails with `NoSolution`. -/
theorem compute_object_safe_goal_spec_witness :
    compute_object_safe_goal dRegen ec0 0 =
      QueryOutcome.ok (ec0.make_canonical_response Certainty.Yes) ∧
    compute_object_safe_goal dFail ec0 0 = QueryOutcome.noSolution :=
  ⟨(compute_object_safe_goal_spec dRegen ec0 0 rfl).1.mpr rfl,
   (compute_object_safe_goal_spec dFail ec0 0 rfl).2 rfl⟩

/-- C9: ConstHasType effect-variable special case — a `ConstHasType` goal
whose constant is an effect-kind inference variable responds `Yes`
immediately; the statement holds for every delegate, so the result does not
depend on the constant's intrinsic type nor on unification with the
expected type. -/
theorem compute_const_arg_has_type_goal_effect_var (d : SolverDelegate)
    (ec : EvalCtxt) (param_env : Nat) (v : Nat) (ty : Ty)
    (h : ec.nested_goals = []) :
    compute_const_arg_has_type_goal d ec param_env
        (ConstKind.Infer (InferConst.EffectVar v)) ty =
      QueryOutcome.ok (ec.make_canonical_response Certainty.Yes) := by
  unfold compute_const_arg_has_type_goal
  exact evaluate_added_goals_empty d ec h Certainty.Yes

/-- Witness for C9 at a concrete input: even under a delegate whose
unification always refuses, the effect-variable goal answers `Yes`. -/
theorem compute_const_arg_has_type_goal_effect_var_witness :
    compute_const_arg_has_type_goal dFail ec0 0
        (ConstKind.Infer (InferConst.EffectVar 0)) (Ty.Rigid 7) =
      QueryOutcome.ok (ec0.make_canonical_response Certainty.Yes) :=
  compute_const_arg_has_type_goal_effect_var dFail ec0 0 0 (Ty.Rigid 7) rfl

/-- Case analysis of `compute_const_evaluatable_goal` over every constant
kind, under an empty worklist (shared by the dispatch and the
no-refutation theorems below). -/
theorem const_evaluatable_goal_cases (d : SolverDelegate) (ec : EvalCtxt)
    (param_env : Nat) (h : ec.nested_goals = []) :
    (∀ p, compute_const_evaluatable_goal d ec param_env (ConstKind.Placeholder p) =
      QueryOutcome.ok (ec.make_canonical_response Certainty.Yes)) ∧
    (∀ ty v, compute_const_evaluatable_goal d ec param_env (ConstKind.Value ty v) =
      QueryOutcome.ok (ec.make_canonical_response Certainty.Yes)) ∧
    (∀ e, compute_const_evaluatable_goal d ec param_env (ConstKind.Error e) =
      QueryOutcome.ok (ec.make_canonical_response Certainty.Yes)) ∧
    (∀ i, compute_const_evaluatable_goal d ec param_env (ConstKind.Infer i) =
      QueryOutcome.ok (ec.make_canonical_response Certainty.AMBIGUOUS)) ∧
    (∀ uv, compute_const_evaluatable_goal d ec param_env (ConstKind.Unevaluated uv) =
      if (d.try_const_eval param_env uv).isSome then
        QueryOutcome.ok (ec.make_canonical_response Certainty.Yes)
      else QueryOutcome.ok (ec.make_canonical_response Certainty.AMBIGUOUS)) ∧
    (∀ p, compute_const_evaluatable_goal d ec param_env (ConstKind.Param p) =
      QueryOutcome.fatalBug) ∧
    (∀ db v, compute_const_evaluatable_goal d ec param_env (ConstKind.Bound db v) =
      QueryOutcome.fatalBug) ∧
    (∀ e, compute_const_evaluatable_goal d ec param_env (ConstKind.Expr e) =
      QueryOutcome.fatalBug) := by
  refine ⟨fun p => ?_, fun ty v => ?_, fun e => ?_, fun i => ?_, fun uv => ?_,
    fun p => rfl, fun db v => rfl, fun e => rfl⟩
  · exact evaluate_added_goals_empty d ec h Certainty.Yes
  · exact evaluate_added_goals_empty d ec h Certainty.Yes
  · exact evaluate_added_goals_empty d ec h Certainty.Yes
  · exact evaluate_added_goals_empty d ec h Certainty.AMBIGUOUS
  · cases he : d.try_const_eval param_env uv with
    | some v =>
      have hstep : compute_const_evaluatable_goal d ec param_env
          (ConstKind.Unevaluated uv) =
          match d.try_const_eval param_env uv with
          | some _ =>
            evaluate_added_goals_and_make_canonical_response d ec Certainty.Yes
          | none =>
            evaluate_added_goals_and_make_canonical_response d ec
              Certainty.AMBIGUOUS := rfl
      rw [hstep, he]
      simp only [Option.isSome_some, if_true]
      exact evaluate_added_goals_empty d ec h Certainty.Yes
    | none =>
      have hstep : compute_const_evaluatable_goal d ec param_env
          (ConstKind.Unevaluated uv) =
          match d.try_const_eval param_env uv with
          | some _ =>
            evaluate_added_goals_and_make_canonical_response d ec Certainty.Yes
          | none =>
            evaluate_added_goals_and_make_canonical_response d ec
              Certainty.AMBIGUOUS := rfl
      rw [hstep, he]
      simp only [Option.isSome_none, Bool.false_eq_true, if_false]
      exact evaluate_added_goals_empty d ec h Certainty.AMBIGUOUS

/-- C4: ConstEvaluatable dispatch — concrete values, placeholders and errors
answer `Yes` (with nothing staged: the response snapshots the unchanged
context and holds for every delegate); unresolved inference variables are
ambiguous; unevaluated constants delegate evaluation, answering `Yes` on a
value and ambiguity otherwise; and `Param`, `Bound` and `Expr` are fatal
internal errors, never `NoSolution` or ambiguity. -/
theorem compute_const_evaluatable_goal_spec (d : SolverDelegate) (ec : EvalCtxt)
    (param_env : Nat) (h : ec.nested_goals = []) :
    (∀ p, compute_const_evaluatable_goal d ec param_env (ConstKind.Placeholder p) =
      QueryOutcome.ok (ec.make_canonical_response Certainty.Yes)) ∧
    (∀ ty v, compute_const_evaluatable_goal d ec param_env (ConstKind.Value ty v) =
      QueryOutcome.ok (ec.make_canonical_response Certainty.Yes)) ∧
    (∀ e, compute_const_evaluatable_goal d ec param_env (ConstKind.Error e) =
      QueryOutcome.ok (ec.make_canonical_response Certainty.Yes)) ∧
    (∀ i, compute_const_evaluatable_goal d ec param_env (ConstKind.Infer i) =
      QueryOutcome.ok (ec.make_canonical_response Certainty.AMBIGUOUS)) ∧
    (∀ uv, compute_const_evaluatable_goal d ec param_env (ConstKind.Unevaluated uv) =
      if (d.try_const_eval param_env uv).isSome then
        QueryOutcome.ok (ec.make_canonical_response Certainty.Yes)
      else QueryOutcome.ok (ec.make_canonical_response Certainty.AMBIGUOUS)) ∧
    (∀ p, compute_const_evaluatable_goal d ec param_env (ConstKind.Param p) =
      QueryOutcome.fatalBug) ∧
    (∀ db v, compute_const_evaluatable_goal d ec param_env (ConstKind.Bound db v) =
      QueryOutcome.fatalBug) ∧
    (∀ e, compute_const_evaluatable_goal d ec param_env (ConstKind.Expr e) =
      QueryOutcome.fatalBug) :=
  const_evaluatable_goal_cases d ec param_env h

/-- Witness for C4 at concrete inputs: a concrete value answers `Yes`, an
unevaluated constant whose delegated evaluation fails answers ambiguity,
and a free parameter is a fatal internal error. -/
theorem compute_const_evaluatable_goal_spec_witness :
    compute_const_evaluatable_goal dRegen ec0 0 (ConstKind.Value (Ty.Rigid 0) 3) =
      QueryOutcome.ok (ec0.make_canonical_response Certainty.Yes) ∧
    compute_const_evaluatable_goal dRegen ec0 0
        (ConstKind.Unevaluated { def_id := 1, args := 2 }) =
      QueryOutcome.ok (ec0.make_canonical_response Certainty.AMBIGUOUS) ∧
    compute_const_evaluatable_goal dRegen ec0 0 (ConstKind.Param 0) =
      QueryOutcome.fatalBug :=
  ⟨(compute_const_evaluatable_goal_spec dRegen ec0 0 rfl).2.1 (Ty.Rigid 0) 3,
   by
    rw [(compute_const_evaluatable_goal_spec dRegen ec0 0 rfl).2.2.2.2.1
      { def_id := 1, args := 2 }]
    decide,
   (compute_const_evaluatable_goal_spec dRegen ec0 0 rfl).2.2.2.2.2.1 0⟩

/-- C10: evaluating a `ConstEvaluatable` goal never fails with `NoSolution`
for any constant kind; in particular, an unevaluated constant whose
delegated evaluation produces no value yields a successful ambiguous
response rather than a refutation. -/
theorem compute_const_evaluatable_goal_no_refutation (d : SolverDelegate)
    (ec : EvalCtxt) (param_env : Nat) (ct : ConstKind)
    (h : ec.nested_goals = []) :
    compute_const_evaluatable_goal d ec param_env ct ≠ QueryOutcome.noSolution ∧
    (∀ uv, ct = ConstKind.Unevaluated uv → d.try_const_eval param_env uv = none →
      compute_const_evaluatable_goal d ec param_env ct =
        QueryOutcome.ok (ec.make_canonical_response Certainty.AMBIGUOUS)) := by
  have hspec := const_evaluatable_goal_cases d ec param_env h
  constructor
  · cases ct with
    | Param p => rw [hspec.2.2.2.2.2.1 p]; exact fun hc => QueryOutcome.noConfusion hc
    | Infer i => rw [hspec.2.2.2.1 i]; exact fun hc => QueryOutcome.noConfusion hc
    | Bound db v => rw [hspec.2.2.2.2.2.2.1 db v]
                    exact fun hc => QueryOutcome.noConfusion hc
    | Placeholder p => rw [hspec.1 p]; exact fun hc => QueryOutcome.noConfusion hc
    | Unevaluated uv =>
      rw [hspec.2.2.2.2.1 uv]
      cases (d.try_const_eval param_env uv).isSome with
      | true => simp only [if_true]; exact fun hc => QueryOutcome.noConfusion hc
      | false =>
        simp only [Bool.false_eq_true, if_false]
        exact fun hc => QueryOutcome.noConfusion hc
    | Value ty v => rw [hspec.2.1 ty v]; exact fun hc => QueryOutcome.noConfusion hc
    | Error e => rw [hspec.2.2.1 e]; exact fun hc => QueryOutcome.noConfusion hc
    | Expr e => rw [hspec.2.2.2.2.2.2.2 e]
                exact fun hc => QueryOutcome.noConfusion hc
  · intro uv hct hnone
    subst hct
    rw [hspec.2.2.2.2.1 uv, hnone]
    simp

/-- Witness for C10 at a concrete input: an unevaluated constant under a
delegate that cannot evaluate it. -/
theorem compute_const_evaluatable_goal_no_refutation_witness :
    compute_const_evaluatable_goal dRegen ec0 0
        (ConstKind.Unevaluated { def_id := 1, args := 2 }) ≠
      QueryOutcome.noSolution ∧
    compute_const_evaluatable_goal dRegen ec0 0
        (ConstKind.Unevaluated { def_id := 1, args := 2 }) =
      QueryOutcome.ok (ec0.make_canonical_response Certainty.AMBIGUOUS) :=
  ⟨(compute_const_evaluatable_goal_no_refutation dRegen ec0 0
      (ConstKind.Unevaluated { def_id := 1, args := 2 }) rfl).1,
   (compute_const_evaluatable_goal_no_refutation dRegen ec0 0
      (ConstKind.Unevaluated { def_id := 1, args := 2 }) rfl).2
      { def_id := 1, args := 2 } rfl rfl⟩

/-- C6: Normalization idempotence — for every environment and every type
whose head constructor is not an alias/opaque form,
`structurally_normalize_ty` succeeds, returns the type unchanged, and
leaves the context untouched (no sub-goal staged and, since the statement
holds for every delegate, none evaluated). -/
theorem structurally_normalize_ty_nonalias (d : SolverDelegate) (ec : EvalCtxt)
    (param_env : Nat) (ty : Ty) (h : ty.is_alias = false) :
    structurally_normalize_ty d ec param_env ty = NormalizeResult.ok ty ec := by
  cases ty with
  | Alias kind data => exact absurd h (by simp [Ty.is_alias])
  | Infer i => rfl
  | Rigid tag => rfl

/-- Witness for C6 at a concrete input: a rigid head is returned unchanged
with the context untouched. -/
theorem structurally_normalize_ty_nonalias_witness :
    structurally_normalize_ty dRegen ec0 0 (Ty.Rigid 3) =
      NormalizeResult.ok (Ty.Rigid 3) ec0 :=
  structurally_normalize_ty_nonalias dRegen ec0 0 (Ty.Rigid 3) rfl

theorem fixpointLoop_regen (d : SolverDelegate)
    (hre : ∀ pending : List Goal, pending ≠ [] →
      ∃ c next, evalStep d pending = StepResult.ok c next ∧ next ≠ []) :
    ∀ (fuel : Nat) (cert : Certainty) (pending : List Goal), pending ≠ [] →
      fixpointLoop d fuel cert pending =
        (FixpointResult.success (Certainty.Maybe MaybeCause.Overflow), fuel) := by
  intro fuel
  induction fuel with
  | zero =>
    intro cert pending hne
    cases pending with
    | nil => exact absurd rfl hne
    | cons g gs => rfl
  | succ f ih =>
    intro cert pending hne
    cases pending with
    | nil => exact absurd rfl hne
    | cons g gs =>
      obtain ⟨c, next, hstep, hnext⟩ := hre (g :: gs) (List.cons_ne_nil g gs)
      simp only [fixpointLoop]
      rw [hstep]
      simp only []
      rw [ih (cert.unify_with c) next hnext]

theorem fixpointLoop_dec_fuel (d : SolverDelegate)
    (hdec : ∀ (pending : List Goal) (c : Certainty) (next : List Goal),
      pending ≠ [] → evalStep d pending = StepResult.ok c next →
      next.length < pending.length) :
    ∀ (fuel₁ fuel₂ : Nat) (cert : Certainty) (pending : List Goal),
      pending.length ≤ fuel₁ → pending.length ≤ fuel₂ →
      fixpointLoop d fuel₁ cert pending = fixpointLoop d fuel₂ cert pending := by
  intro fuel₁
  induction fuel₁ with
  | zero =>
    intro fuel₂ cert pending h1 _
    have hnil : pending = [] := List.length_eq_zero.mp (Nat.le_zero.mp h1)
    subst hnil
    rw [fixpointLoop_nil, fixpointLoop_nil]
  | succ f ih =>
    intro fuel₂ cert pending h1 h2
    cases pending with
    | nil => rw [fixpointLoop_nil, fixpointLoop_nil]
    | cons g gs =>
      cases fuel₂ with
      | zero =>
        exact absurd (Nat.le_zero.mp h2) (by simp)
      | succ f2 =>
        simp only [fixpointLoop]
        cases hstep : evalStep d (g :: gs) with
        | noSolution => rfl
        | ok c next =>
          have hlt := hdec (g :: gs) c next (List.cons_ne_nil g gs) hstep
          have hn1 : next.length ≤ f := Nat.lt_succ_iff.mp (Nat.lt_of_lt_of_le hlt h1)
          have hn2 : next.length ≤ f2 := Nat.lt_succ_iff.mp (Nat.lt_of_lt_of_le hlt h2)
          simp only []
          rw [ih f2 (cert.unify_with c) next hn1 hn2]

theorem fixpointLoop_iter_le (d : SolverDelegate)
    (hdec : ∀ (pending : List Goal) (c : Certainty) (next : List Goal),
      pending ≠ [] → evalStep d pending = StepResult.ok c next →
      next.length < pending.length) :
    ∀ (fuel : Nat) (cert : Certainty) (pending : List Goal),
      pending.length ≤ fuel →
      (fixpointLoop d fuel cert pending).2 ≤ pending.length := by
  intro fuel
  induction fuel with
  | zero =>
    intro cert pending h1
    have hnil : pending = [] := List.length_eq_zero.mp (Nat.le_zero.mp h1)
    subst hnil
    rw [fixpointLoop_nil]
    exact Nat.le_refl 0
  | succ f ih =>
    intro cert pending h1
    cases pending with
    | nil => rw [fixpointLoop_nil]; exact Nat.le_refl 0
    | cons g gs =>
      simp only [fixpointLoop]
      cases hstep : evalStep d (g :: gs) with
      | noSolution => simp
      | ok c next =>
        have hlt := hdec (g :: gs) c next (List.cons_ne_nil g gs) hstep
        have hn : next.length ≤ f := Nat.lt_succ_iff.mp (Nat.lt_of_lt_of_le hlt h1)
        have hih := ih (cert.unify_with c) next hn
        simp only []
        omega

/-- C5: Bounded fixpoint — the iteration cap is the constant 8; under any
delegate whose step keeps regenerating pending nested goals, the fixpoint
on a non-empty worklist performs exactly the cap's number of iterations and
ends with `Certainty::Ambiguous(Overflow)`; and under any delegate whose
step strictly decreases the pending-goal count, a worklist within the cap
terminates in at most as many iterations as it has goals, with the same
result any larger fuel would give. -/
theorem fixpoint_bounded_spec :
    FIXPOINT_STEP_LIMIT = 8 ∧
    (∀ d : SolverDelegate,
      (∀ pending : List Goal, pending ≠ [] →
        ∃ c next, evalStep d pending = StepResult.ok c next ∧ next ≠ []) →
      ∀ (cert : Certainty) (pending : List Goal), pending ≠ [] →
        fixpointLoop d FIXPOINT_STEP_LIMIT cert pending =
          (FixpointResult.success (Certainty.Maybe MaybeCause.Overflow),
            FIXPOINT_STEP_LIMIT)) ∧
    (∀ d : SolverDelegate,
      (∀ (pending : List Goal) (c : Certainty) (next : List Goal),
        pending ≠ [] → evalStep d pending = StepResult.ok c next →
        next.length < pending.length) →
      ∀ (cert : Certainty) (pending : List Goal),
        pending.length ≤ FIXPOINT_STEP_LIMIT →
        fixpointLoop d FIXPOINT_STEP_LIMIT cert pending =
          fixpointLoop d pending.length cert pending ∧
        (fixpointLoop d FIXPOINT_STEP_LIMIT cert pending).2 ≤ pending.length) :=
  ⟨rfl,
   fun d hre cert pending hne =>
     fixpointLoop_regen d hre FIXPOINT_STEP_LIMIT cert pending hne,
   fun d hdec cert pending hlen =>
     ⟨fixpointLoop_dec_fuel d hdec FIXPOINT_STEP_LIMIT pending.length cert pending
        hlen (Nat.le_refl pending.length),
      fixpointLoop_iter_le d hdec FIXPOINT_STEP_LIMIT cert pending hlen⟩⟩

theorem evalStepGo_resolve (gs : List Goal) :
    ∀ (cert : Certainty) (acc : List Goal),
      evalStepGo dResolve gs cert acc = StepResult.ok cert acc := by
  induction gs with
  | nil => intro cert acc; rfl
  | cons g rest ih =>
    intro cert acc
    have hstep : evalStepGo dResolve (g :: rest) cert acc =
        evalStepGo dResolve rest (cert.unify_with Certainty.Yes) (acc ++ []) := rfl
    rw [hstep, unify_with_yes, List.append_nil]
    exact ih cert acc

theorem dResolve_dec :
    ∀ (pending : List Goal) (c : Certainty) (next : List Goal), pending ≠ [] →
      evalStep dResolve pending = StepResult.ok c next →
      next.length < pending.length := by
  intro pending c next hne hstep
  have h2 : evalStep dResolve pending = StepResult.ok Certainty.Yes [] :=
    evalStepGo_resolve pending Certainty.Yes []
  rw [h2] at hstep
  cases hstep
  exact List.length_pos.mpr hne

theorem evalStepGo_regen (gs : List Goal) :
    ∀ (cert : Certainty) (acc : List Goal),
      ∃ c, evalStepGo dRegen gs cert acc = StepResult.ok c (acc ++ gs) := by
  induction gs with
  | nil => intro cert acc; exact ⟨cert, by rw [List.append_nil]; rfl⟩
  | cons g rest ih =>
    intro cert acc
    obtain ⟨c, hc⟩ := ih (cert.unify_with Certainty.AMBIGUOUS) (acc ++ [g])
    refine ⟨c, ?_⟩
    have hstep : evalStepGo dRegen (g :: rest) cert acc =
        evalStepGo dRegen rest (cert.unify_with Certainty.AMBIGUOUS)
          (acc ++ [g]) := rfl
    rw [hstep, hc]
    rw [List.append_assoc]
    rfl

theorem dRegen_regenerates :
    ∀ pending : List Goal, pending ≠ [] →
      ∃ c next, evalStep dRegen pending = StepResult.ok c next ∧ next ≠ [] := by
  intro pending hne
  obtain ⟨c, hc⟩ := evalStepGo_regen pending Certainty.Yes []
  rw [List.nil_append] at hc
  exact ⟨c, pending, hc, hne⟩

/-- Witness for C5 at concrete inputs: a self-regenerating goal runs
exactly 8 iterations and overflows; a strictly-resolving delegate finishes
a two-goal worklist within 2 iterations. -/
theorem fixpoint_bounded_spec_witness :
    fixpointLoop dRegen FIXPOINT_STEP_LIMIT Certainty.Yes [goal0] =
      (FixpointResult.success (Certainty.Maybe MaybeCause.Overflow),
        FIXPOINT_STEP_LIMIT) ∧
    (fixpointLoop dResolve FIXPOINT_STEP_LIMIT Certainty.Yes [goal0, goal0]).2 ≤ 2 :=
  ⟨fixpoint_bounded_spec.2.1 dRegen dRegen_regenerates Certainty.Yes [goal0]
     (List.cons_ne_nil goal0 []),
   (fixpoint_bounded_spec.2.2 dResolve dResolve_dec Certainty.Yes [goal0, goal0]
     (by decide)).2⟩
